import Mathlib

/-!
Shallow embedding of the JSON→PDF inspection-report pipeline
(`util_map_and_extract.py`, `fill_pdf_form.py`, `src/script.py`,
`src/bonus_pdf.py`) and proofs about its specification.

Strings are modelled by Lean `String`/`List Char`; Python floats by exact
rationals (`ℚ`); Python dicts by insertion-ordered association lists with
overwrite-on-reinsert, matching CPython's guaranteed iteration order.
-/

/-- ASCII whitespace recognised by Python's `str.strip` / `re` `\s`
(space, tab, newline, carriage return, vertical tab, form feed). -/
def isWs (c : Char) : Bool :=
  c.toNat == 32 || c.toNat == 9 || c.toNat == 10 || c.toNat == 13 ||
    c.toNat == 11 || c.toNat == 12

/-- `s.strip()` on a character list: drop whitespace from both ends. -/
def stripL (l : List Char) : List Char :=
  (((l.dropWhile isWs).reverse).dropWhile isWs).reverse

/-- `re.sub(r"\s+", " ", ·)`: each maximal whitespace run becomes one space. -/
def collapseWs : List Char → List Char
  | [] => []
  | c :: t =>
    if isWs c then
      match t with
      | [] => [' ']
      | d :: t' => if isWs d then collapseWs (d :: t') else ' ' :: collapseWs (d :: t')
    else c :: collapseWs t

/-- `str.lower()` (ASCII model): lower-case every character. -/
def lowerL (l : List Char) : List Char := l.map Char.toLower

/-- `normalize_title` (util_map_and_extract.py:88-91): empty input gives `""`;
otherwise strip, lower-case, then collapse internal whitespace runs. -/
def normalize_title (s : String) : String :=
  if s = "" then "" else ⟨collapseWs (lowerL (stripL s.data))⟩

/-- `str.strip()` on a `String`. -/
def stripStr (s : String) : String := ⟨stripL s.data⟩

/-- `str.lower()` on a `String`. -/
def lowerStr (s : String) : String := ⟨lowerL s.data⟩

example : normalize_title "  Foundation   Systems " = "foundation systems" := by decide
example : normalize_title "" = "" := by decide

/-! ## Substring test (Python's `in` operator on strings) -/

/-- `xs` is a prefix of `ys` (character lists). -/
def isPre : List Char → List Char → Bool
  | [], _ => true
  | _ :: _, [] => false
  | a :: as, b :: bs => a == b && isPre as bs

/-- `xs` occurs contiguously inside `ys`; `isSub x.data y.data` models
Python's `x in y` on strings (the empty string is in everything). -/
def isSub (xs : List Char) : List Char → Bool
  | [] => xs.isEmpty
  | b :: bs => isPre xs (b :: bs) || isSub xs bs

/-- Python `a in b` for strings. -/
def strIn (a b : String) : Bool := isSub a.data b.data

example : strIn "foundations" "foundation systems" = false := by decide
example : strIn "foundations" "the foundations area" = true := by decide

/-! ## Dict model: insertion-ordered association lists with overwrite.

CPython dicts iterate in insertion order, and re-assigning an existing key
updates the value in place without moving the key.  `insertAssoc` models
`d[k] = v`; keys are unique by construction. -/

/-- `d[k] = v` on a Python dict modelled as an association list. -/
def insertAssoc {α : Type} (l : List (String × α)) (k : String) (v : α) :
    List (String × α) :=
  match l with
  | [] => [(k, v)]
  | (k', v') :: t => if k' = k then (k, v) :: t else (k', v') :: insertAssoc t k v

/-- `d.get(k)` / first-match association-list lookup. -/
def getAssoc {α : Type} (l : List (String × α)) (k : String) : Option α :=
  (l.find? (fun e => e.1 == k)).map (·.2)

/-- `d.setdefault(k, dflt)` followed by an in-place update of the value by
`f` (models `d.setdefault(k, []).append(x)` / `.extend(xs)`). -/
def updateAssoc {α : Type} (l : List (String × α)) (k : String) (f : α → α)
    (dflt : α) : List (String × α) :=
  match l with
  | [] => [(k, f dflt)]
  | (k', v') :: t =>
    if k' = k then (k, f v') :: t else (k', v') :: updateAssoc t k f dflt

/-! ## Title lookup and resolver (util_map_and_extract.py:93-110) -/

/-- `MAJOR_NORMALIZE` (util_map_and_extract.py:24-31). -/
def MAJOR_NORMALIZE : List (String × String) :=
  [("Structural Systems", "I. STRUCTURAL SYSTEMS"),
   ("Electrical Systems", "II. ELECTRICAL SYSTEMS"),
   ("Heating, Ventilation and Air Conditioning Systems",
    "III. HEATING, VENTILATION AND AIR CONDITIONING SYSTEMS"),
   ("Plumbing Systems", "IV. PLUMBING SYSTEMS"),
   ("Appliances", "V. APPLIANCES"),
   ("Optional Systems", "VI. OPTIONAL SYSTEMS")]

/-- A mapping table `{ major: { sourceTitle: canonicalSubsection } }`,
insertion-ordered. -/
abbrev MappingTable : Type := List (String × List (String × String))

/-- `build_title_lookup` (util_map_and_extract.py:93-101): majors missing
from `MAJOR_NORMALIZE` are skipped; each source title is inserted under its
normalized form, later duplicates overwriting earlier ones. -/
def build_title_lookup (mapping : MappingTable) :
    List (String × (String × String)) :=
  mapping.foldl
    (fun out entry =>
      match getAssoc MAJOR_NORMALIZE entry.1 with
      | none => out
      | some major_norm =>
        entry.2.foldl
          (fun out' sc => insertAssoc out' (normalize_title sc.1) (major_norm, sc.2))
          out)
    []

/-- `resolve_item` (util_map_and_extract.py:103-110): exact lookup of the
normalized title, then a first-match containment fallback
(`k in key or key in k`), else `None`. -/
def resolve_item (title : String) (lookup : List (String × (String × String))) :
    Option (String × String) :=
  let k := normalize_title title
  match getAssoc lookup k with
  | some v => some v
  | none =>
    (lookup.find? (fun e => strIn k e.1 || strIn e.1 k)).map (·.2)

example :
    resolve_item "Foundation Systems"
      [("foundations", ("I. STRUCTURAL SYSTEMS", "Foundations"))] = none := by decide
example :
    resolve_item "The Foundations Area"
      [("foundations", ("I. STRUCTURAL SYSTEMS", "Foundations"))] =
      some ("I. STRUCTURAL SYSTEMS", "Foundations") := by decide
example :
    resolve_item "Foundations"
      (build_title_lookup [("Structural Systems", [("foundations", "Foundations")])]) =
      some ("I. STRUCTURAL SYSTEMS", "Foundations") := by decide

/-- The resolver as the spec describes it (§4.1): compute the normalized
key; exact dict lookup first; otherwise the first entry whose key is a
substring of the computed key or contains it; else `NOT_FOUND`.  Written
from the spec's words, to be compared with `resolve_item` from the code. -/
def resolveSpec (title : String) (lookup : List (String × (String × String))) :
    Option (String × String) :=
  let key := normalize_title title
  match List.lookup key lookup with
  | some v => some v
  | none =>
    match lookup.find? (fun e => strIn e.1 key || strIn key e.1) with
    | some e => some e.2
    | none => none

/-- The flattened sequence of `(normalizedTitle, (major, subsection))`
insertions performed by `build_title_lookup`, in execution order. -/
def titleInsertions (mapping : MappingTable) :
    List (String × (String × String)) :=
  mapping.flatMap (fun e =>
    match getAssoc MAJOR_NORMALIZE e.1 with
    | none => []
    | some mn => e.2.map (fun sc => (normalize_title sc.1, (mn, sc.2))))

/-! ## Inspection data model (spec §3; JSON shapes read by the grouping code) -/

/-- Python's `x or y` for an optional string field: the first *truthy*
value wins (`None` and `""` are falsy). -/
def pyOr (a : Option String) (b : String) : String :=
  match a with
  | some s => if s = "" then b else s
  | none => b

/-- A comment on a line item: `value` (text) and `type` (severity tag);
either may be absent in the JSON.  Media references are handled by the
filesystem/network collaborator and are out of scope (spec §1). -/
structure GComment where
  value : Option String
  ctype : Option String
deriving DecidableEq, Repr

/-- A line item: free-text `title` (with `name` as fallback) and comments. -/
structure GLineItem where
  title : Option String
  name : Option String
  comments : List GComment
deriving DecidableEq, Repr

/-- A section owns its line items (`section["lineItems"]`). -/
structure GSection where
  lineItems : List GLineItem
deriving DecidableEq, Repr

/-- The inspection record: `data["inspection"]["sections"]`. -/
structure InspectionRecord where
  sections : List GSection
deriving DecidableEq, Repr

/-- `li.get("title") or li.get("name") or ""` (both grouping functions). -/
def effTitle (li : GLineItem) : String := pyOr li.title (pyOr li.name "")

/-- One step of the severity scan in `group_items_detailed`
(util_map_and_extract.py:377-381): `t = (c.get("type") or "").lower()`;
defect pins the severity, limit upgrades info. -/
def severityStep (sev : String) (c : GComment) : String :=
  let t := lowerStr (pyOr c.ctype "")
  if t = "defect" then "defect"
  else if t = "limit" ∧ sev ≠ "defect" then "limit"
  else sev

/-- The aggregated severity of a comment sequence (initial value `"info"`). -/
def severityOf (cs : List GComment) : String := cs.foldl severityStep "info"

/-- The non-empty stripped comment texts, in order
(`if isinstance(v, str) and v.strip(): texts.append(v.strip())`). -/
def textsOf (cs : List GComment) : List String :=
  cs.filterMap (fun c =>
    match c.value with
    | some v => if stripStr v ≠ "" then some (stripStr v) else none
    | none => none)

/-- `" ".join(texts).strip()`. -/
def bodyOf (cs : List GComment) : String := stripStr (String.intercalate " " (textsOf cs))

/-- A grouped item `{label, text, type}` (media out of scope, spec §1). -/
structure GItem where
  label : String
  text : String
  itemType : String
deriving DecidableEq, Repr

/-- `GroupedContent`: major → subsection → ordered item list. -/
abbrev GroupedContent : Type := List (String × List (String × List GItem))

/-- `grouped.setdefault(major, {}).setdefault(canonical, []).append(item)`. -/
def appendNested (g : GroupedContent) (major sub : String) (it : GItem) :
    GroupedContent :=
  updateAssoc g major (fun m => updateAssoc m sub (fun l => l ++ [it]) []) []

/-- Processing of one line item inside `group_items_detailed`
(util_map_and_extract.py:364-388). -/
def groupDetailedStep (lookup : List (String × (String × String)))
    (g : GroupedContent) (li : GLineItem) : GroupedContent :=
  let title := effTitle li
  if title = "" then g
  else
    match resolve_item title lookup with
    | none => g
    | some (major, canonical) =>
      appendNested g major canonical
        ⟨title, bodyOf li.comments, severityOf li.comments⟩

/-- `group_items_detailed` (util_map_and_extract.py:357-389), media
collection elided (filesystem I/O, out of scope per spec §1). -/
def group_items_detailed (data : InspectionRecord)
    (lookup : List (String × (String × String))) : GroupedContent :=
  data.sections.foldl
    (fun g s => s.lineItems.foldl (groupDetailedStep lookup) g) []

/-- Processing of one line item inside `group_by_subsection`
(fill_pdf_form.py:128-141): state is `(grouped, unmatched)`. -/
def groupBySubStep (lookup : List (String × (String × String)))
    (st : List (String × List String) × List String) (li : GLineItem) :
    List (String × List String) × List String :=
  let title := effTitle li
  if title = "" then st
  else
    match resolve_item title lookup with
    | none => (st.1, st.2 ++ [title])
    | some (_, canonical) =>
      let body := bodyOf li.comments
      let bullet := if body ≠ "" then "• " ++ title ++ ": " ++ body else "• " ++ title
      (updateAssoc st.1 canonical (fun l => l ++ [bullet]) [], st.2)

/-- `group_by_subsection` (fill_pdf_form.py:125-142): flat
subsection → bullet list, plus the unmatched-title diagnostics. -/
def group_by_subsection (data : InspectionRecord)
    (lookup : List (String × (String × String))) :
    List (String × List String) × List String :=
  data.sections.foldl
    (fun st s => s.lineItems.foldl (groupBySubStep lookup) st) ([], [])

/-- One checklist row `{I, NI, NP, D}`. -/
structure SubStatus where
  i : Bool
  ni : Bool
  np : Bool
  d : Bool
deriving DecidableEq, Repr

/-- An item as seen by the status aggregator: a dict with a `type` key
that may be absent (`it.get("type") or ""`). -/
structure SItem where
  itemType : Option String
deriving DecidableEq, Repr

/-- `compute_subsection_status` (util_map_and_extract.py:391-395). -/
def compute_subsection_status (items : List SItem) : SubStatus :=
  if items.isEmpty then ⟨false, false, true, false⟩
  else ⟨true, false, false, items.any (fun it => pyOr it.itemType "" == "defect")⟩

example :
    severityOf [⟨none, some "info"⟩, ⟨none, some "limit"⟩, ⟨none, some "defect"⟩,
      ⟨none, some "info"⟩] = "defect" := by decide
example : compute_subsection_status [] = ⟨false, false, true, false⟩ := by decide

/-! ## Text-fit estimator and layout allocator (fill_pdf_form.py:144-146,
200-225).  Python floats are modelled by exact rationals. -/

/-- Python `int()` on a float/rational: truncation toward zero. -/
def ratTrunc (q : ℚ) : ℤ := if 0 ≤ q then ⌊q⌋ else ⌈q⌉

/-- `estimate_visible_chars` (fill_pdf_form.py:144-146):
`int(area_pts * 0.45 / max(font_pt/8.0, 0.5))`. -/
def estimate_visible_chars (area_pts : ℚ) (font_pt : ℚ) : ℤ :=
  ratTrunc (area_pts * (45 / 100) / max (font_pt / 8) (1 / 2))

/-- A multiline-capable text widget as extracted by `page_text_widgets`
(fill_pdf_form.py:83-107): field name, top `y`, area, multiline flag.
`area` comes from `abs((x1-x0)*(y1-y0))`, hence is non-negative in use. -/
structure Widget where
  name : String
  y : ℚ
  area : ℚ
  multiline : Bool
deriving DecidableEq, Repr

/-- The sort key order of `widgets.sort(key=lambda w: (-w["y"], -w["area"]))`:
`v` may come at or after `w` (descending `y`, then descending `area`). -/
def widgetLE (w v : Widget) : Prop :=
  v.y < w.y ∨ (w.y = v.y ∧ v.area ≤ w.area)

instance : DecidableRel widgetLE := fun w v => by
  unfold widgetLE; infer_instance

/-- Stable insertion of a widget into a list already sorted by `widgetLE`:
the new element goes before the first element it does not dominate.  Used
left-to-right this reproduces any stable sort by the same key, in
particular Python's `list.sort`. -/
def insWidget (w : Widget) : List Widget → List Widget
  | [] => [w]
  | h :: t => if widgetLE w h then w :: h :: t else h :: insWidget w t

/-- Stable sort by `(-y, -area)`, as in fill_pdf_form.py:204. -/
def sortWidgets : List Widget → List Widget
  | [] => []
  | w :: t => insWidget w (sortWidgets t)

/-- The truncation marker appended by the allocator (fill_pdf_form.py:216). -/
def contMarker : String := " … (continued in Narrative)"

/-- The block rendered for a subsection:
`subsection + ":\n" + "\n".join(items)` (fill_pdf_form.py:212). -/
def blockOf (subsection : String) (items : List String) : String :=
  subsection ++ ":\n" ++ String.intercalate "\n" items

/-- The character cap for a widget: `cap = estimate_visible_chars(area, 8.0)`
then `cap = int(cap * 0.7)` (fill_pdf_form.py:213-215). -/
def capOf (w : Widget) : ℤ :=
  ratTrunc ((estimate_visible_chars w.area 8 : ℚ) * (7 / 10))

/-- Python string slicing `s[:n]` (negative `n` counts from the end). -/
def pySliceTo (s : String) (n : ℤ) : String :=
  if 0 ≤ n then s.take n.toNat else s.dropRight (-n).toNat

/-- Allocation state: accumulated `(fieldName, value)` writes and the
global `narrative_overflow` collection. -/
structure AllocState where
  writes : List (String × String)
  overflow : List (String × List String)
deriving DecidableEq, Repr

/-- The body of the allocator's inner loop for one `(subsection, widget)`
pair (fill_pdf_form.py:206-225): skip when there are no grouped items;
otherwise write the (possibly truncated) block and, on overflow, extend
the subsection's entry in the global overflow collection. -/
def allocStep (grouped : List (String × List String)) (st : AllocState)
    (p : String × Widget) : AllocState :=
  let items := (getAssoc grouped p.1).getD []
  if items.isEmpty then st
  else
    let text := blockOf p.1 items
    let cap := capOf p.2
    let to_field := if (text.length : ℤ) ≤ cap then text
      else pySliceTo text cap ++ contMarker
    { writes := st.writes ++ [(p.2.name, to_field)],
      overflow := if cap < (text.length : ℤ) then
          updateAssoc st.overflow p.1 (fun l => l ++ items) []
        else st.overflow }

/-- One page of the allocator loop (fill_pdf_form.py:200-225): restrict to
multiline widgets, sort by descending `y` then descending area, and pair
them positionally with the page's expected subsections (`range(n)` with
`n = min(len(subsections), len(widgets))` is exactly `List.zip`). -/
def allocPage (grouped : List (String × List String))
    (subsections : List String) (widgets : List Widget) (st : AllocState) :
    AllocState :=
  (subsections.zip (sortWidgets (widgets.filter (·.multiline)))).foldl
    (allocStep grouped) st

/-- The whole allocation pass over `PAGE_SUBSECTIONS`: pages processed in
order, the overflow collection shared across pages. -/
def allocate (grouped : List (String × List String))
    (pages : List (List String × List Widget)) : AllocState :=
  pages.foldl (fun st page => allocPage grouped page.1 page.2 st) ⟨[], []⟩

example : estimate_visible_chars (2000 / 9) 8 = 100 := by
  unfold estimate_visible_chars ratTrunc; norm_num

/-! ## `fit_font_size` (src/script.py:319-324 and src/bonus_pdf.py:363-367).

`pdfmetrics.stringWidth` is the external renderer's measurement capability;
it enters as an explicit function argument `width : ℤ → ℚ` (text and face
are fixed by the caller, so only the size varies). -/

/-- The descending loop `for sz in range(max_size, min_size - 1, -1)`. -/
def fitGo (width : ℤ → ℚ) (maxW : ℚ) (minSize : ℤ) : ℕ → ℤ → ℤ
  | 0, _ => minSize
  | n + 1, sz => if width sz ≤ maxW then sz else fitGo width maxW minSize n (sz - 1)

/-- `fit_font_size(text, face, max_size, max_width, min_size)`: largest size
in `[min_size, max_size]` whose rendered width fits, else `min_size`. -/
def fit_font_size (width : ℤ → ℚ) (maxW : ℚ) (maxSize minSize : ℤ) : ℤ :=
  fitGo width maxW minSize (maxSize - minSize + 1).toNat maxSize

example : fit_font_size (fun s => (s : ℚ)) 9 11 7 = 9 := by decide
example : fit_font_size (fun s => (s : ℚ)) 5 11 7 = 7 := by decide

/-! ## Spec-side predicates used to state the theorems -/

/-- No two adjacent whitespace characters. -/
def NoWsRun : List Char → Prop
  | [] => True
  | [_] => True
  | a :: b :: t => ¬(isWs a = true ∧ isWs b = true) ∧ NoWsRun (b :: t)

/-- The comment's type tag normalizes (lower-cased) to `"defect"`. -/
def isDefectC (c : GComment) : Bool := lowerStr (pyOr c.ctype "") == "defect"

/-- The comment's type tag normalizes (lower-cased) to `"limit"`. -/
def isLimitC (c : GComment) : Bool := lowerStr (pyOr c.ctype "") == "limit"

/-- The status-aggregator item has severity `"defect"`
(`(it.get("type") or "") == "defect"`). -/
def isDefectS (it : SItem) : Bool := pyOr it.itemType "" == "defect"

/-- All line items of the record in traversal order (sections in order,
line items in order within each section). -/
def allLineItems (data : InspectionRecord) : List GLineItem :=
  data.sections.foldr (fun s acc => s.lineItems ++ acc) []

/-- The titles expected in the unmatched-titles diagnostics: the effective
title of every line item whose title is non-empty and resolves to
`NOT_FOUND`, in traversal order. -/
def unmatchedTitles (data : InspectionRecord)
    (lookup : List (String × (String × String))) : List String :=
  (allLineItems data).filterMap (fun li =>
    if effTitle li ≠ "" ∧ resolve_item (effTitle li) lookup = none then
      some (effTitle li)
    else none)

/-- A subsection's rendered block exceeds the cap of widget `w` (the
overflow-triggering condition of fill_pdf_form.py:224): the subsection has
grouped items and the block is longer than the widget's cap. -/
def blockExceeds (grouped : List (String × List String)) (sub : String)
    (w : Widget) : Prop :=
  (getAssoc grouped sub).getD [] ≠ [] ∧
    capOf w < ((blockOf sub ((getAssoc grouped sub).getD [])).length : ℤ)

/-! # Theorems

## Character-level facts about `Char.toLower` and `isWs` -/

lemma toLower_toNat_of_upper {c : Char} (h : 65 ≤ c.toNat ∧ c.toNat ≤ 90) :
    (Char.toLower c).toNat = c.toNat + 32 := by
  rw [Char.toLower]
  simp only [h, if_pos, and_self, ge_iff_le]
  rw [Char.ofNat, dif_pos (Or.inl (by omega))]
  rfl

lemma toLower_eq_of_not_upper {c : Char} (h : ¬(65 ≤ c.toNat ∧ c.toNat ≤ 90)) :
    Char.toLower c = c := by
  rw [Char.toLower]
  simp only [ge_iff_le]
  rw [if_neg h]

lemma toLower_toLower (c : Char) :
    Char.toLower (Char.toLower c) = Char.toLower c := by
  by_cases h : 65 ≤ c.toNat ∧ c.toNat ≤ 90
  · have hn := toLower_toNat_of_upper h
    exact toLower_eq_of_not_upper (by omega)
  · rw [toLower_eq_of_not_upper h, toLower_eq_of_not_upper h]

lemma isWs_toNat {c : Char} :
    isWs c = true ↔
      c.toNat = 32 ∨ c.toNat = 9 ∨ c.toNat = 10 ∨ c.toNat = 13 ∨
        c.toNat = 11 ∨ c.toNat = 12 := by
  simp [isWs, Bool.or_eq_true, beq_iff_eq, or_assoc]

lemma isWs_toLower (c : Char) : isWs (Char.toLower c) = isWs c := by
  by_cases h : 65 ≤ c.toNat ∧ c.toNat ≤ 90
  · have hn := toLower_toNat_of_upper h
    have h1 : isWs (Char.toLower c) = false := by
      rw [Bool.eq_false_iff]
      intro hw
      rcases isWs_toNat.mp hw with h' | h' | h' | h' | h' | h' <;> omega
    have h2 : isWs c = false := by
      rw [Bool.eq_false_iff]
      intro hw
      rcases isWs_toNat.mp hw with h' | h' | h' | h' | h' | h' <;> omega
    rw [h1, h2]
  · rw [toLower_eq_of_not_upper h]

lemma toLower_space : Char.toLower ' ' = ' ' := by decide

/-! ## `dropWhile`, `stripL`, `lowerL` basics -/

lemma dropWhile_eq_self {p : Char → Bool} {l : List Char}
    (h : ∀ c, l.head? = some c → p c = false) : l.dropWhile p = l := by
  cases l with
  | nil => rfl
  | cons c t =>
    have := h c rfl
    simp [List.dropWhile_cons, this]

lemma head?_dropWhile {p : Char → Bool} {l : List Char} {c : Char}
    (h : (l.dropWhile p).head? = some c) : p c = false := by
  induction l with
  | nil => simp at h
  | cons a t ih =>
    by_cases hp : p a
    · rw [List.dropWhile_cons, if_pos hp] at h
      exact ih h
    · rw [List.dropWhile_cons, if_neg hp] at h
      simp at h
      subst h
      exact Bool.eq_false_iff.mpr hp

lemma getLast?_dropWhile {p : Char → Bool} {l : List Char}
    (h : l.dropWhile p ≠ []) : (l.dropWhile p).getLast? = l.getLast? := by
  induction l with
  | nil => rfl
  | cons a t ih =>
    by_cases hp : p a
    · rw [List.dropWhile_cons, if_pos hp] at h ⊢
      have ht : t ≠ [] := by
        intro he
        subst he
        simp [List.dropWhile] at h
      rw [ih h]
      cases t with
      | nil => exact absurd rfl ht
      | cons b t' => rw [List.getLast?_cons_cons]
    · rw [List.dropWhile_cons, if_neg hp]

lemma stripL_head {l : List Char} {c : Char}
    (h : (stripL l).head? = some c) : isWs c = false := by
  unfold stripL at h
  rw [List.head?_reverse] at h
  have hne : (((l.dropWhile isWs).reverse).dropWhile isWs) ≠ [] := by
    intro he
    rw [he] at h
    simp at h
  rw [getLast?_dropWhile hne, List.getLast?_reverse] at h
  exact head?_dropWhile h

lemma stripL_last {l : List Char} {c : Char}
    (h : (stripL l).getLast? = some c) : isWs c = false := by
  unfold stripL at h
  rw [List.getLast?_reverse] at h
  exact head?_dropWhile h

lemma stripL_eq_self {l : List Char}
    (h1 : ∀ c, l.head? = some c → isWs c = false)
    (h2 : ∀ c, l.getLast? = some c → isWs c = false) : stripL l = l := by
  unfold stripL
  rw [dropWhile_eq_self h1]
  rw [dropWhile_eq_self (by intro c hc; rw [List.head?_reverse] at hc; exact h2 c hc)]
  exact l.reverse_reverse

lemma lowerL_eq_self {l : List Char} (h : ∀ x ∈ l, Char.toLower x = x) :
    lowerL l = l := by
  induction l with
  | nil => rfl
  | cons a t ih =>
    simp only [lowerL, List.map_cons]
    rw [h a (List.mem_cons_self a t)]
    have := ih (fun x hx => h x (List.mem_cons_of_mem a hx))
    simp only [lowerL] at this
    rw [this]

/-! ## `collapseWs` structure -/

lemma collapseWs_cons_not {c : Char} {t : List Char} (h : isWs c = false) :
    collapseWs (c :: t) = c :: collapseWs t := by
  cases t <;> simp [collapseWs, h]

lemma collapseWs_ne_nil {l : List Char} (h : l ≠ []) : collapseWs l ≠ [] := by
  induction l with
  | nil => exact absurd rfl h
  | cons c t ih =>
    by_cases hc : isWs c
    · cases t with
      | nil => simp [collapseWs, hc]
      | cons d t' =>
        by_cases hd : isWs d
        · simpa [collapseWs, hc, hd] using ih (by simp)
        · simp [collapseWs, hc, hd]
    · rw [collapseWs_cons_not (Bool.eq_false_iff.mpr hc)]
      simp

lemma mem_collapseWs {l : List Char} :
    ∀ x ∈ collapseWs l, x = ' ' ∨ (x ∈ l ∧ isWs x = false) := by
  induction l with
  | nil => simp [collapseWs]
  | cons c t ih =>
    intro x hx
    by_cases hc : isWs c
    · cases t with
      | nil =>
        simp [collapseWs, hc] at hx
        exact Or.inl hx
      | cons d t' =>
        by_cases hd : isWs d
        · rw [show collapseWs (c :: d :: t') = collapseWs (d :: t') by
            simp [collapseWs, hc, hd]] at hx
          rcases ih x hx with h | ⟨hm, hw⟩
          · exact Or.inl h
          · exact Or.inr ⟨List.mem_cons_of_mem c hm, hw⟩
        · rw [show collapseWs (c :: d :: t') = ' ' :: collapseWs (d :: t') by
            simp [collapseWs, hc, hd]] at hx
          rcases List.mem_cons.mp hx with h | h
          · exact Or.inl h
          · rcases ih x h with h' | ⟨hm, hw⟩
            · exact Or.inl h'
            · exact Or.inr ⟨List.mem_cons_of_mem c hm, hw⟩
    · rw [collapseWs_cons_not (Bool.eq_false_iff.mpr hc)] at hx
      rcases List.mem_cons.mp hx with h | h
      · subst h
        exact Or.inr ⟨List.mem_cons_self x t, Bool.eq_false_iff.mpr hc⟩
      · rcases ih x h with h' | ⟨hm, hw⟩
        · exact Or.inl h'
        · exact Or.inr ⟨List.mem_cons_of_mem c hm, hw⟩

lemma head?_collapseWs (l : List Char) :
    (collapseWs l).head? = l.head?.map (fun c => if isWs c then ' ' else c) := by
  induction l with
  | nil => rfl
  | cons c t ih =>
    by_cases hc : isWs c
    · cases t with
      | nil => simp [collapseWs, hc]
      | cons d t' =>
        by_cases hd : isWs d
        · rw [show collapseWs (c :: d :: t') = collapseWs (d :: t') by
            simp [collapseWs, hc, hd]]
          rw [ih]
          simp [hc, hd]
        · rw [show collapseWs (c :: d :: t') = ' ' :: collapseWs (d :: t') by
            simp [collapseWs, hc, hd]]
          simp [hc]
    · rw [collapseWs_cons_not (Bool.eq_false_iff.mpr hc)]
      simp [hc]

lemma getLast?_collapseWs (l : List Char) :
    (collapseWs l).getLast? =
      l.getLast?.map (fun c => if isWs c then ' ' else c) := by
  induction l with
  | nil => rfl
  | cons c t ih =>
    cases t with
    | nil =>
      by_cases hc : isWs c <;> simp [collapseWs, hc]
    | cons d t' =>
      have hlast : (c :: d :: t').getLast? = (d :: t').getLast? :=
        List.getLast?_cons_cons
      by_cases hc : isWs c
      · by_cases hd : isWs d
        · rw [show collapseWs (c :: d :: t') = collapseWs (d :: t') by
            simp [collapseWs, hc, hd]]
          rw [ih, hlast]
        · rw [show collapseWs (c :: d :: t') = ' ' :: collapseWs (d :: t') by
            simp [collapseWs, hc, hd]]
          have hne : collapseWs (d :: t') ≠ [] := collapseWs_ne_nil (by simp)
          cases he : collapseWs (d :: t') with
          | nil => exact absurd he hne
          | cons e r =>
            rw [List.getLast?_cons_cons]
            rw [← he, ih, hlast]
      · rw [collapseWs_cons_not (Bool.eq_false_iff.mpr hc)]
        have hne : collapseWs (d :: t') ≠ [] := collapseWs_ne_nil (by simp)
        cases he : collapseWs (d :: t') with
        | nil => exact absurd he hne
        | cons e r =>
          rw [List.getLast?_cons_cons]
          rw [← he, ih, hlast]

lemma noWsRun_cons {a : Char} {l : List Char} (hl : NoWsRun l)
    (h : ∀ b, l.head? = some b → isWs a = false ∨ isWs b = false) :
    NoWsRun (a :: l) := by
  cases l with
  | nil => trivial
  | cons b t =>
    refine ⟨?_, hl⟩
    rintro ⟨ha, hb⟩
    rcases h b rfl with h' | h' <;> simp_all

lemma noWsRun_collapseWs (l : List Char) : NoWsRun (collapseWs l) := by
  induction l with
  | nil => trivial
  | cons c t ih =>
    by_cases hc : isWs c
    · cases t with
      | nil =>
        simp only [collapseWs, hc, if_true]
        trivial
      | cons d t' =>
        by_cases hd : isWs d
        · rw [show collapseWs (c :: d :: t') = collapseWs (d :: t') by
            simp [collapseWs, hc, hd]]
          exact ih
        · rw [show collapseWs (c :: d :: t') = ' ' :: collapseWs (d :: t') by
            simp [collapseWs, hc, hd]]
          rw [collapseWs_cons_not (Bool.eq_false_iff.mpr hd)] at ih ⊢
          refine noWsRun_cons ih ?_
          intro b hb
          simp only [List.head?_cons, Option.some.injEq] at hb
          right
          rw [← hb]
          exact Bool.eq_false_iff.mpr hd
    · rw [collapseWs_cons_not (Bool.eq_false_iff.mpr hc)]
      refine noWsRun_cons ih ?_
      intro b _
      exact Or.inl (Bool.eq_false_iff.mpr hc)

lemma collapseWs_eq_self {l : List Char} (h1 : NoWsRun l)
    (h2 : ∀ x ∈ l, isWs x = true → x = ' ') : collapseWs l = l := by
  induction l with
  | nil => rfl
  | cons c t ih =>
    by_cases hc : isWs c
    · have hcsp : c = ' ' := h2 c (List.mem_cons_self c t) hc
      cases t with
      | nil => simp [collapseWs, hc, hcsp]
      | cons d t' =>
        have hd : isWs d = false := by
          rcases h1 with ⟨hpair, _⟩
          cases hdd : isWs d with
          | false => rfl
          | true => exact absurd ⟨hc, hdd⟩ hpair
        rw [show collapseWs (c :: d :: t') = ' ' :: collapseWs (d :: t') by
          simp [collapseWs, hc, hd]]
        rw [ih h1.2 (fun x hx => h2 x (List.mem_cons_of_mem c hx)), hcsp]
    · rw [collapseWs_cons_not (Bool.eq_false_iff.mpr hc)]
      have ht : NoWsRun t := by
        cases t with
        | nil => trivial
        | cons d t' => exact h1.2
      rw [ih ht (fun x hx => h2 x (List.mem_cons_of_mem c hx))]

/-! ## C10: idempotence of `normalize_title` -/

lemma normalize_core_fix (l : List Char) :
    collapseWs (lowerL (stripL (collapseWs (lowerL (stripL l))))) =
      collapseWs (lowerL (stripL l)) := by
  set m := lowerL (stripL l) with hm
  have hmhead : ∀ c, m.head? = some c → isWs c = false := by
    intro c hc
    rw [hm, lowerL, List.head?_map] at hc
    cases h0 : (stripL l).head? with
    | none => rw [h0] at hc; simp at hc
    | some c1 =>
      rw [h0] at hc
      simp only [Option.map_some'] at hc
      have := stripL_head h0
      rw [← Option.some.injEq] at hc
      simp only [Option.some.injEq] at hc
      rw [← hc, isWs_toLower]
      exact this
  have hmlast : ∀ c, m.getLast? = some c → isWs c = false := by
    intro c hc
    rw [hm, lowerL, List.getLast?_map] at hc
    cases h0 : (stripL l).getLast? with
    | none => rw [h0] at hc; simp at hc
    | some c1 =>
      rw [h0] at hc
      simp only [Option.map_some', Option.some.injEq] at hc
      have := stripL_last h0
      rw [← hc, isWs_toLower]
      exact this
  have hhead : ∀ c, (collapseWs m).head? = some c → isWs c = false := by
    intro c hc
    rw [head?_collapseWs] at hc
    cases h0 : m.head? with
    | none => rw [h0] at hc; simp at hc
    | some c0 =>
      rw [h0] at hc
      simp only [Option.map_some', Option.some.injEq] at hc
      have h0' := hmhead c0 h0
      rw [← hc, if_neg (by rw [h0']; exact Bool.false_ne_true)]
      exact h0'
  have hlast : ∀ c, (collapseWs m).getLast? = some c → isWs c = false := by
    intro c hc
    rw [getLast?_collapseWs] at hc
    cases h0 : m.getLast? with
    | none => rw [h0] at hc; simp at hc
    | some c0 =>
      rw [h0] at hc
      simp only [Option.map_some', Option.some.injEq] at hc
      have h0' := hmlast c0 h0
      rw [← hc, if_neg (by rw [h0']; exact Bool.false_ne_true)]
      exact h0'
  have hfix : ∀ x ∈ collapseWs m, Char.toLower x = x := by
    intro x hx
    rcases mem_collapseWs x hx with h | ⟨hmem, _⟩
    · rw [h]; exact toLower_space
    · rw [hm, lowerL] at hmem
      rcases List.mem_map.mp hmem with ⟨y, _, hy⟩
      rw [← hy]
      exact toLower_toLower y
  have hws : ∀ x ∈ collapseWs m, isWs x = true → x = ' ' := by
    intro x hx hwx
    rcases mem_collapseWs x hx with h | ⟨_, hfalse⟩
    · exact h
    · rw [hwx] at hfalse; exact absurd hfalse (by simp)
  rw [stripL_eq_self hhead hlast, lowerL_eq_self hfix,
    collapseWs_eq_self (noWsRun_collapseWs m) hws]

/-! ## Association-list facts shared by several claims -/

lemma updateAssoc_forall {α : Type} {P : α → Prop} :
    ∀ {l : List (String × α)} {k : String} {f : α → α} {d : α},
      (∀ p ∈ l, P p.2) → (∀ v, P v → P (f v)) → P (f d) →
      ∀ p ∈ updateAssoc l k f d, P p.2 := by
  intro l
  induction l with
  | nil =>
    intro k f d _ _ hd p hp
    simp only [updateAssoc, List.mem_singleton] at hp
    rw [hp]
    exact hd
  | cons q t ih =>
    intro k f d hl hf hd p hp
    rw [updateAssoc] at hp
    by_cases hk : q.1 = k
    · rw [if_pos hk] at hp
      rcases List.mem_cons.mp hp with h | h
      · rw [h]; exact hf q.2 (hl q (List.mem_cons_self q t))
      · exact hl p (List.mem_cons_of_mem q h)
    · rw [if_neg hk] at hp
      rcases List.mem_cons.mp hp with h | h
      · rw [h]; exact hl q (List.mem_cons_self q t)
      · exact ih (fun r hr => hl r (List.mem_cons_of_mem q hr)) hf hd p h

lemma foldl_preserve {β γ : Type} {P : γ → Prop} (step : γ → β → γ)
    (h : ∀ g b, P g → P (step g b)) :
    ∀ (l : List β) (g : γ), P g → P (l.foldl step g) := by
  intro l
  induction l with
  | nil => intro g hg; exact hg
  | cons b t ih => intro g hg; exact ih (step g b) (h g b hg)

lemma getAssoc_insertAssoc_self {α : Type} (l : List (String × α)) (k : String)
    (v : α) : getAssoc (insertAssoc l k v) k = some v := by
  induction l with
  | nil => simp [insertAssoc, getAssoc]
  | cons q t ih =>
    rw [insertAssoc]
    by_cases hk : q.1 = k
    · rw [if_pos hk]
      simp [getAssoc]
    · rw [if_neg hk]
      simp only [getAssoc, List.find?_cons]
      rw [show (q.1 == k) = false by simp [hk]]
      exact ih

lemma getAssoc_insertAssoc_ne {α : Type} (l : List (String × α)) (k k' : String)
    (v : α) (h : k' ≠ k) :
    getAssoc (insertAssoc l k v) k' = getAssoc l k' := by
  have hkk : ¬(k = k') := fun he => h he.symm
  induction l with
  | nil => simp [insertAssoc, getAssoc, hkk]
  | cons q t ih =>
    rw [insertAssoc]
    by_cases hk : q.1 = k
    · rw [if_pos hk]
      simp [getAssoc, List.find?_cons, hkk, hk]
    · rw [if_neg hk]
      by_cases hq : q.1 = k'
      · simp [getAssoc, List.find?_cons, hq]
      · simp only [getAssoc, List.find?_cons, show (q.1 == k') = false by
          simp [hq]]
        exact ih

lemma getAssoc_updateAssoc_isSome {α : Type} :
    ∀ (l : List (String × α)) (k k' : String) (f : α → α) (d : α),
      (getAssoc (updateAssoc l k f d) k').isSome ↔
        (getAssoc l k').isSome ∨ k = k' := by
  intro l
  induction l with
  | nil =>
    intro k k' f d
    by_cases hk : k = k' <;> simp [updateAssoc, getAssoc, hk]
  | cons q t ih =>
    intro k k' f d
    rw [updateAssoc]
    by_cases hk : q.1 = k
    · rw [if_pos hk]
      by_cases hq : k = k'
      · simp [getAssoc, List.find?_cons, hq]
      · simp [getAssoc, List.find?_cons, hq, show ¬(q.1 = k') from hk ▸ hq]
    · rw [if_neg hk]
      by_cases hq : q.1 = k'
      · simp [getAssoc, List.find?_cons, hq]
      · simp only [getAssoc, List.find?_cons, show (q.1 == k') = false by
          simp [hq]]
        exact ih k k' f d

/-! ## C7: `fit_font_size` -/

lemma fitGo_spec (width : ℤ → ℚ) (maxW : ℚ) (m : ℤ) :
    ∀ (n : ℕ) (sz : ℤ), (n : ℤ) = sz - m + 1 →
      (m ≤ fitGo width maxW m n sz ∧ fitGo width maxW m n sz ≤ max sz m) ∧
      (∀ s, m ≤ s → s ≤ sz → width s ≤ maxW →
        width (fitGo width maxW m n sz) ≤ maxW ∧ s ≤ fitGo width maxW m n sz) ∧
      ((∀ s, m ≤ s → s ≤ sz → maxW < width s) → fitGo width maxW m n sz = m) := by
  intro n
  induction n with
  | zero =>
    intro sz h
    refine ⟨⟨le_refl m, le_max_right sz m⟩, ?_, fun _ => rfl⟩
    intro s hs1 hs2 _
    omega
  | succ n ih =>
    intro sz h
    have hszm : m ≤ sz := by omega
    have hn' : (n : ℤ) = (sz - 1) - m + 1 := by push_cast at h ⊢; omega
    by_cases hw : width sz ≤ maxW
    · rw [show fitGo width maxW m (n + 1) sz = sz by simp [fitGo, hw]]
      exact ⟨⟨hszm, le_max_left sz m⟩,
        fun s _ hs2 _ => ⟨hw, hs2⟩,
        fun hall => absurd hw (not_le.mpr (hall sz hszm (le_refl sz)))⟩
    · rw [show fitGo width maxW m (n + 1) sz = fitGo width maxW m n (sz - 1) by
        simp [fitGo, hw]]
      have H := ih (sz - 1) hn'
      refine ⟨⟨H.1.1, le_trans H.1.2 (max_le_max (by omega) (le_refl m))⟩,
        ?_, ?_⟩
      · intro s hs1 hs2 hs3
        have hsne : s ≠ sz := by
          intro he
          subst he
          exact hw hs3
        exact H.2.1 s hs1 (by omega) hs3
      · intro hall
        exact H.2.2 (fun s hs1 hs2 => hall s hs1 (by omega))

/-- **C7.**  `fit_font_size` never returns a size below `minSize` (nor above
`maxSize`); whenever some size in `[minSize, maxSize]` renders within
`maxWidth`, the returned size renders within `maxWidth` and dominates every
such size (i.e. it is the largest fitting size); and when every size in
range overflows, `minSize` is returned. -/
theorem fit_font_size_spec (width : ℤ → ℚ) (maxW : ℚ) (maxSize minSize : ℤ)
    (h : minSize ≤ maxSize) :
    minSize ≤ fit_font_size width maxW maxSize minSize ∧
    fit_font_size width maxW maxSize minSize ≤ maxSize ∧
    (∀ s, minSize ≤ s → s ≤ maxSize → width s ≤ maxW →
      width (fit_font_size width maxW maxSize minSize) ≤ maxW ∧
      s ≤ fit_font_size width maxW maxSize minSize) ∧
    ((∀ s, minSize ≤ s → s ≤ maxSize → maxW < width s) →
      fit_font_size width maxW maxSize minSize = minSize) := by
  have hn : (((maxSize - minSize + 1).toNat : ℕ) : ℤ) = maxSize - minSize + 1 :=
    Int.toNat_of_nonneg (by omega)
  have H := fitGo_spec width maxW minSize (maxSize - minSize + 1).toNat maxSize hn
  refine ⟨H.1.1, ?_, H.2.1, H.2.2⟩
  have h2 := H.1.2
  rw [max_eq_left h] at h2
  exact h2

/-- Witness for C7 at a concrete measurement function: linear width
`s ↦ s`, bound 9, range 11 down to 7; the returned size is within
`[7, 11]`, fits the bound, and dominates the fitting size 9. -/
theorem fit_font_size_spec_witness :
    7 ≤ fit_font_size (fun s => (s : ℚ)) 9 11 7 ∧
    fit_font_size (fun s => (s : ℚ)) 9 11 7 ≤ 11 ∧
    ((fit_font_size (fun s => (s : ℚ)) 9 11 7 : ℤ) : ℚ) ≤ 9 ∧
    9 ≤ fit_font_size (fun s => (s : ℚ)) 9 11 7 := by
  have H := fit_font_size_spec (fun s => (s : ℚ)) 9 11 7 (by decide)
  have H9 := H.2.2.1 9 (by decide) (by decide) (by decide)
  exact ⟨H.1, H.2.1, H9.1, H9.2⟩

/-! ## C2: severity aggregation -/

lemma sev_step_defect (c : GComment) : severityStep "defect" c = "defect" := by
  unfold severityStep
  by_cases hd : lowerStr (pyOr c.ctype "") = "defect" <;> simp [hd]

lemma sev_from_defect (cs : List GComment) :
    cs.foldl severityStep "defect" = "defect" := by
  induction cs with
  | nil => rfl
  | cons c t ih => rw [List.foldl_cons, sev_step_defect]; exact ih

lemma sev_from_limit (cs : List GComment) :
    cs.foldl severityStep "limit" =
      if cs.any isDefectC then "defect" else "limit" := by
  induction cs with
  | nil => rfl
  | cons c t ih =>
    rw [List.foldl_cons, List.any_cons]
    by_cases hd : lowerStr (pyOr c.ctype "") = "defect"
    · have hstep : severityStep "limit" c = "defect" := by
        unfold severityStep
        simp [hd]
      have hdc : isDefectC c = true := by simp [isDefectC, hd]
      rw [hstep, sev_from_defect, hdc]
      simp
    · have hstep : severityStep "limit" c = "limit" := by
        unfold severityStep
        by_cases hl : lowerStr (pyOr c.ctype "") = "limit"
        · simp [hl]
        · simp [hd, hl]
      have hdc : isDefectC c = false := by simp [isDefectC, hd]
      rw [hstep, ih, hdc]
      simp

lemma sev_from_info (cs : List GComment) :
    severityOf cs =
      if cs.any isDefectC then "defect"
      else if cs.any isLimitC then "limit" else "info" := by
  induction cs with
  | nil => rfl
  | cons c t ih =>
    unfold severityOf at *
    rw [List.foldl_cons, List.any_cons, List.any_cons]
    by_cases hd : lowerStr (pyOr c.ctype "") = "defect"
    · have hstep : severityStep "info" c = "defect" := by
        unfold severityStep
        simp [hd]
      have hdc : isDefectC c = true := by simp [isDefectC, hd]
      rw [hstep, sev_from_defect, hdc]
      simp
    · have hdc : isDefectC c = false := by simp [isDefectC, hd]
      by_cases hl : lowerStr (pyOr c.ctype "") = "limit"
      · have hstep : severityStep "info" c = "limit" := by
          unfold severityStep
          simp [hd, hl]
        have hlc : isLimitC c = true := by simp [isLimitC, hl]
        rw [hstep, sev_from_limit, hdc, hlc]
        simp
      · have hstep : severityStep "info" c = "info" := by
          unfold severityStep
          simp [hd, hl]
        have hlc : isLimitC c = false := by simp [isLimitC, hl]
        rw [hstep, ih, hdc, hlc]
        simp

/-- **C2.**  The severity aggregated over a line item's comments (in input
order, starting at `"info"`) is `"defect"` iff some comment's type
lower-cases to `"defect"`, else `"limit"` iff some lower-cases to
`"limit"`, else `"info"`; starting from `"defect"` the scan never leaves
`"defect"`; and the three example sequences behave as specified. -/
theorem severity_aggregation :
    (∀ cs : List GComment,
      severityOf cs =
        if cs.any isDefectC then "defect"
        else if cs.any isLimitC then "limit" else "info") ∧
    (∀ cs : List GComment, cs.foldl severityStep "defect" = "defect") ∧
    severityOf [⟨none, some "info"⟩, ⟨none, some "limit"⟩,
      ⟨none, some "defect"⟩, ⟨none, some "info"⟩] = "defect" ∧
    severityOf [⟨none, some "info"⟩, ⟨none, some "limit"⟩] = "limit" ∧
    severityOf [] = "info" :=
  ⟨sev_from_info, sev_from_defect, by decide, by decide, rfl⟩

/-! ## C3: status aggregation -/

/-- **C3.**  `compute_subsection_status` maps the empty item list to
`{I:false, NI:false, NP:true, D:false}` and any non-empty list to
`{I:true, NI:false, NP:false, D:(some item has severity "defect")}`;
consequently the `NI` flag is false on every input. -/
theorem subsection_status_spec :
    compute_subsection_status [] = ⟨false, false, true, false⟩ ∧
    (∀ (it : SItem) (its : List SItem),
      compute_subsection_status (it :: its) =
        ⟨true, false, false, (it :: its).any isDefectS⟩) ∧
    (∀ items : List SItem, (compute_subsection_status items).ni = false) := by
  refine ⟨rfl, fun it its => rfl, fun items => ?_⟩
  cases items <;> rfl

/-- **C10.**  `normalize_title` is idempotent:
`normalize_title (normalize_title x) = normalize_title x` for every string,
and the empty string is mapped to the empty string. -/
theorem normalize_title_idempotent :
    (∀ s : String, normalize_title (normalize_title s) = normalize_title s) ∧
    normalize_title "" = "" := by
  constructor
  · intro s
    by_cases hs : s = ""
    · subst hs; rfl
    · have h1 : normalize_title s = ⟨collapseWs (lowerL (stripL s.data))⟩ := by
        rw [normalize_title, if_neg hs]
      rw [h1]
      by_cases hr : (⟨collapseWs (lowerL (stripL s.data))⟩ : String) = ""
      · rw [normalize_title, if_pos hr]
        exact hr.symm
      · rw [normalize_title, if_neg hr]
        exact congrArg String.mk (normalize_core_fix s.data)
  · rfl

/-! ## C9: unmapped titles are recorded, empty titles silently skipped -/

lemma groupBySubStep_unresolved (lookup : List (String × (String × String)))
    (st : List (String × List String) × List String) (li : GLineItem)
    (h1 : effTitle li ≠ "")
    (h2 : resolve_item (effTitle li) lookup = none) :
    groupBySubStep lookup st li = (st.1, st.2 ++ [effTitle li]) := by
  simp only [groupBySubStep]
  rw [if_neg h1, h2]

lemma groupBySubStep_empty (lookup : List (String × (String × String)))
    (st : List (String × List String) × List String) (li : GLineItem)
    (h : effTitle li = "") : groupBySubStep lookup st li = st := by
  simp only [groupBySubStep]
  rw [if_pos h]

lemma groupBySubStep_resolved_snd (lookup : List (String × (String × String)))
    (st : List (String × List String) × List String) (li : GLineItem)
    (mc : String × String)
    (h2 : resolve_item (effTitle li) lookup = some mc) :
    (groupBySubStep lookup st li).2 = st.2 := by
  simp only [groupBySubStep]
  by_cases h1 : effTitle li = ""
  · rw [if_pos h1]
  · rw [if_neg h1, h2]

lemma snd_foldl_items (lookup : List (String × (String × String))) :
    ∀ (items : List GLineItem)
      (st : List (String × List String) × List String),
      (items.foldl (groupBySubStep lookup) st).2 =
        st.2 ++ items.filterMap (fun li =>
          if effTitle li ≠ "" ∧ resolve_item (effTitle li) lookup = none then
            some (effTitle li)
          else none) := by
  intro items
  induction items with
  | nil => intro st; simp
  | cons li t ih =>
    intro st
    rw [List.foldl_cons, List.filterMap_cons, ih]
    by_cases h1 : effTitle li = ""
    · rw [groupBySubStep_empty lookup st li h1]
      simp [h1]
    · cases hr : resolve_item (effTitle li) lookup with
      | none =>
        rw [groupBySubStep_unresolved lookup st li h1 hr]
        simp [h1, hr, List.append_assoc]
      | some mc =>
        rw [groupBySubStep_resolved_snd lookup st li mc hr]
        simp [hr]

lemma snd_group_by_subsection (data : InspectionRecord)
    (lookup : List (String × (String × String))) :
    (group_by_subsection data lookup).2 = unmatchedTitles data lookup := by
  unfold group_by_subsection unmatchedTitles allLineItems
  have key : ∀ (sections : List GSection)
      (st : List (String × List String) × List String),
      (sections.foldl (fun st s => s.lineItems.foldl (groupBySubStep lookup) st)
        st).2 =
        st.2 ++ (sections.foldr (fun s acc => s.lineItems ++ acc) []).filterMap
          (fun li =>
            if effTitle li ≠ "" ∧ resolve_item (effTitle li) lookup = none then
              some (effTitle li)
            else none) := by
    intro sections
    induction sections with
    | nil => intro st; simp
    | cons s rest ih =>
      intro st
      rw [List.foldl_cons, ih, snd_foldl_items, List.foldr_cons,
        List.filterMap_append, List.append_assoc]
  rw [key]
  simp

/-- **C9.**  In `group_by_subsection`, a line item with a non-empty title
that resolves to `NOT_FOUND` leaves every grouped bucket unchanged and
appends its title to the unmatched-titles diagnostics; a line item with an
empty/missing title is skipped without any record; and over a whole run the
diagnostics list is exactly the traversal-ordered list of non-empty
unresolvable titles. -/
theorem unmapped_title_handling :
    (∀ (lookup : List (String × (String × String)))
       (st : List (String × List String) × List String) (li : GLineItem),
      effTitle li ≠ "" → resolve_item (effTitle li) lookup = none →
        groupBySubStep lookup st li = (st.1, st.2 ++ [effTitle li])) ∧
    (∀ (lookup : List (String × (String × String)))
       (st : List (String × List String) × List String) (li : GLineItem),
      effTitle li = "" → groupBySubStep lookup st li = st) ∧
    (∀ (data : InspectionRecord) (lookup : List (String × (String × String))),
      (group_by_subsection data lookup).2 = unmatchedTitles data lookup) :=
  ⟨groupBySubStep_unresolved, groupBySubStep_empty, snd_group_by_subsection⟩

/-- Witness for C9: the item titled `"Unknown Widget XYZ"` with an empty
lookup is recorded in the diagnostics and grouped nowhere; a titleless item
changes nothing. -/
theorem unmapped_title_handling_witness :
    groupBySubStep [] ([], []) ⟨some "Unknown Widget XYZ", none, []⟩ =
      (([] : List (String × List String)),
        ([] : List String) ++ ["Unknown Widget XYZ"]) ∧
    groupBySubStep [] ([("A", ["x"])], ["y"]) ⟨none, none, []⟩ =
      ([("A", ["x"])], ["y"]) :=
  ⟨unmapped_title_handling.1 [] ([], []) ⟨some "Unknown Widget XYZ", none, []⟩
      (by decide) (by decide),
    unmapped_title_handling.2.1 [] ([("A", ["x"])], ["y"]) ⟨none, none, []⟩
      (by decide)⟩

/-! ## C8: every bucket present in `GroupedContent` is non-empty -/

lemma appendNested_nonempty {g : GroupedContent} {major sub : String}
    {it : GItem}
    (hg : ∀ p ∈ g, ∀ q ∈ p.2, q.2 ≠ []) :
    ∀ p ∈ appendNested g major sub it, ∀ q ∈ p.2, q.2 ≠ [] := by
  unfold appendNested
  refine updateAssoc_forall
    (P := fun subs : List (String × List GItem) =>
      ∀ q ∈ subs, q.2 ≠ ([] : List GItem)) hg ?_ ?_
  · intro m hm
    refine updateAssoc_forall (P := fun v => v ≠ ([] : List GItem)) hm ?_ ?_
    · intro v _
      simp
    · simp
  · refine updateAssoc_forall (P := fun v => v ≠ ([] : List GItem)) ?_ ?_ ?_
    · intro q hq
      exact absurd hq (List.not_mem_nil q)
    · intro v _
      simp
    · simp

lemma groupDetailedStep_nonempty (lookup : List (String × (String × String)))
    (g : GroupedContent) (li : GLineItem)
    (hg : ∀ p ∈ g, ∀ q ∈ p.2, q.2 ≠ []) :
    ∀ p ∈ groupDetailedStep lookup g li, ∀ q ∈ p.2, q.2 ≠ [] := by
  unfold groupDetailedStep
  by_cases h1 : effTitle li = ""
  · rw [if_pos h1]; exact hg
  · rw [if_neg h1]
    cases hr : resolve_item (effTitle li) lookup with
    | none => exact hg
    | some mc =>
      obtain ⟨major, canonical⟩ := mc
      exact appendNested_nonempty hg

/-- **C8.**  In the `GroupedContent` built by `group_items_detailed`, every
subsection bucket that is present holds a non-empty item list: subsections
with no resolved items are absent, never present with an empty list. -/
theorem grouped_buckets_nonempty (data : InspectionRecord)
    (lookup : List (String × (String × String))) :
    ∀ p ∈ group_items_detailed data lookup, ∀ q ∈ p.2, q.2 ≠ [] := by
  unfold group_items_detailed
  refine foldl_preserve
    (P := fun g : GroupedContent => ∀ p ∈ g, ∀ q ∈ p.2, q.2 ≠ ([] : List GItem))
    _ ?_ data.sections []
    (by intro p hp; exact absurd hp (List.not_mem_nil p))
  intro g s hg
  exact foldl_preserve _ (groupDetailedStep_nonempty lookup) s.lineItems g hg

/-- Witness for C8 on the spec §8 scenario: one line item titled
`"Foundations"` with a defect comment; the single bucket produced is the
non-empty `[{label:"Foundations", text:"Crack observed", type:"defect"}]`. -/
theorem grouped_buckets_nonempty_witness :
    ([⟨"Foundations", "Crack observed", "defect"⟩] : List GItem) ≠ [] :=
  grouped_buckets_nonempty
    ⟨[⟨[⟨some "Foundations", none, [⟨some "Crack observed", some "defect"⟩]⟩]⟩]⟩
    [("foundations", ("I. STRUCTURAL SYSTEMS", "Foundations"))]
    ("I. STRUCTURAL SYSTEMS",
      [("Foundations", [⟨"Foundations", "Crack observed", "defect"⟩])])
    (by decide)
    ("Foundations", [⟨"Foundations", "Crack observed", "defect"⟩])
    (by decide)

/-! ## C4: the resolver algorithm, and its containment fallback -/

lemma getAssoc_eq_lookup {α : Type} :
    ∀ (l : List (String × α)) (k : String), getAssoc l k = List.lookup k l := by
  intro l
  induction l with
  | nil => intro k; rfl
  | cons e t ih =>
    intro k
    simp only [getAssoc, List.find?_cons, List.lookup]
    by_cases h : e.1 = k
    · rw [show (e.1 == k) = true by simp [h], show (k == e.1) = true by simp [h]]
      rfl
    · rw [show (e.1 == k) = false by simp [h],
        show (k == e.1) = false by simp [Ne.symm h]]
      simpa [getAssoc] using ih k

lemma find?_containment_comm (k : String) :
    ∀ (l : List (String × (String × String))),
      l.find? (fun e => strIn k e.1 || strIn e.1 k) =
        l.find? (fun e => strIn e.1 k || strIn k e.1) := by
  intro l
  induction l with
  | nil => rfl
  | cons e t ih =>
    simp only [List.find?_cons]
    rw [Bool.or_comm]
    cases (strIn e.1 k || strIn k e.1) with
    | true => rfl
    | false => exact ih

/-- **C4 (amended).**  `resolve_item` implements exactly the spec's
algorithm (`resolveSpec`): normalized exact lookup first, then the first
entry related to the key by containment in either direction, else `None`;
when no entry matches at all it returns `None`.  The fallback fires for
`"Foundations Area"` against the key `"foundations"`, but the spec's own
example `"Foundation Systems"` matches nothing, since neither string
contains the other. -/
theorem resolve_item_spec :
    (∀ (title : String) (lookup : List (String × (String × String))),
      resolve_item title lookup = resolveSpec title lookup) ∧
    (∀ (title : String) (lookup : List (String × (String × String))),
      (∀ e ∈ lookup, e.1 ≠ normalize_title title ∧
        strIn (normalize_title title) e.1 = false ∧
        strIn e.1 (normalize_title title) = false) →
      resolve_item title lookup = none) ∧
    resolve_item "Foundations Area"
      [("foundations", ("I. STRUCTURAL SYSTEMS", "Foundations"))] =
      some ("I. STRUCTURAL SYSTEMS", "Foundations") ∧
    resolve_item "Foundation Systems"
      [("foundations", ("I. STRUCTURAL SYSTEMS", "Foundations"))] = none := by
  refine ⟨?_, ?_, by decide, by decide⟩
  · intro title lookup
    simp only [resolve_item, resolveSpec]
    rw [getAssoc_eq_lookup]
    cases List.lookup (normalize_title title) lookup with
    | some v => rfl
    | none =>
      rw [← find?_containment_comm]
      cases lookup.find? (fun e =>
        strIn (normalize_title title) e.1 || strIn e.1 (normalize_title title)) with
      | some e => rfl
      | none => rfl
  · intro title lookup h
    simp only [resolve_item]
    rw [show getAssoc lookup (normalize_title title) = none by
      unfold getAssoc
      rw [List.find?_eq_none.mpr (fun e he => by simp [(h e he).1])]
      rfl]
    rw [List.find?_eq_none.mpr (fun e he => by
      simp [(h e he).2.1, (h e he).2.2])]
    rfl

/-- Witness for C4 at a concrete no-match input: a title unrelated to the
only lookup key resolves to `None`. -/
theorem resolve_item_spec_witness :
    resolve_item "zzz"
      [("foundations", ("I. STRUCTURAL SYSTEMS", "Foundations"))] = none :=
  resolve_item_spec.2.1 "zzz"
    [("foundations", ("I. STRUCTURAL SYSTEMS", "Foundations"))] (by decide)

/-- Counterexample to C4 as stated: resolving `"Foundation Systems"`
against a lookup whose only key is `"foundations"` yields `None`, not that
entry's value — neither of `"foundation systems"` and `"foundations"` is a
substring of the other. -/
theorem resolve_fuzzy_example_counterexample :
    resolve_item "Foundation Systems"
      [("foundations", ("I. STRUCTURAL SYSTEMS", "Foundations"))] = none ∧
    (none : Option (String × String)) ≠
      some ("I. STRUCTURAL SYSTEMS", "Foundations") := by decide

/-! ## C5: the build/resolve round-trip -/

lemma build_title_lookup_eq_insertions :
    ∀ (mapping : MappingTable) (l0 : List (String × (String × String))),
      mapping.foldl
        (fun out entry =>
          match getAssoc MAJOR_NORMALIZE entry.1 with
          | none => out
          | some major_norm =>
            entry.2.foldl
              (fun out' sc =>
                insertAssoc out' (normalize_title sc.1) (major_norm, sc.2))
              out)
        l0 =
      (titleInsertions mapping).foldl (fun acc p => insertAssoc acc p.1 p.2) l0 := by
  intro mapping
  induction mapping with
  | nil => intro l0; simp [titleInsertions]
  | cons e rest ih =>
    intro l0
    rw [List.foldl_cons, ih,
      show titleInsertions (e :: rest) =
        (match getAssoc MAJOR_NORMALIZE e.1 with
         | none => []
         | some mn => e.2.map (fun sc => (normalize_title sc.1, (mn, sc.2)))) ++
          titleInsertions rest from by simp [titleInsertions],
      List.foldl_append]
    cases hmn : getAssoc MAJOR_NORMALIZE e.1 with
    | none => rfl
    | some mn =>
      rw [List.foldl_map]

lemma getAssoc_foldl_insert_not_mem {α : Type} :
    ∀ (ins : List (String × α)) (l0 : List (String × α)) (k : String),
      k ∉ ins.map Prod.fst →
      getAssoc (ins.foldl (fun acc p => insertAssoc acc p.1 p.2) l0) k =
        getAssoc l0 k := by
  intro ins
  induction ins with
  | nil => intro l0 k _; rfl
  | cons p t ih =>
    intro l0 k hk
    simp only [List.map_cons, List.mem_cons] at hk
    push_neg at hk
    rw [List.foldl_cons, ih (insertAssoc l0 p.1 p.2) k hk.2]
    exact getAssoc_insertAssoc_ne l0 p.1 k p.2 hk.1

/-- **C5 (amended).**  For a mapping table whose majors are all recognized
by `MAJOR_NORMALIZE` at the relevant entry and in which no two source
titles (across all majors) share the same normalized key, every listed
source title resolves through the built lookup back to the pair
(normalized major, canonical subsection). -/
theorem build_resolve_roundtrip (mapping : MappingTable)
    (major : String) (srcs : List (String × String)) (src sub mn : String)
    (h1 : (major, srcs) ∈ mapping) (h2 : (src, sub) ∈ srcs)
    (hmn : getAssoc MAJOR_NORMALIZE major = some mn)
    (hnodup : ((titleInsertions mapping).map Prod.fst).Nodup) :
    resolve_item src (build_title_lookup mapping) = some (mn, sub) := by
  have hmem : (normalize_title src, (mn, sub)) ∈ titleInsertions mapping := by
    unfold titleInsertions
    rw [List.mem_flatMap]
    refine ⟨(major, srcs), h1, ?_⟩
    rw [hmn]
    exact List.mem_map.mpr ⟨(src, sub), h2, rfl⟩
  obtain ⟨s, t, hst⟩ := List.append_of_mem hmem
  have hbuild : build_title_lookup mapping =
      (titleInsertions mapping).foldl (fun acc p => insertAssoc acc p.1 p.2) [] :=
    build_title_lookup_eq_insertions mapping []
  have hnod2 : normalize_title src ∉ t.map Prod.fst := by
    rw [hst] at hnodup
    simp only [List.map_append, List.map_cons] at hnodup
    have h3 := List.Nodup.of_append_right hnodup
    exact (List.nodup_cons.mp h3).1
  have hget : getAssoc (build_title_lookup mapping) (normalize_title src) =
      some (mn, sub) := by
    rw [hbuild, hst, List.foldl_append, List.foldl_cons,
      getAssoc_foldl_insert_not_mem t _ _ hnod2]
    exact getAssoc_insertAssoc_self _ _ _
  simp only [resolve_item]
  rw [hget]

/-- Witness for C5 on the spec §8 mapping: `"foundations"` under
`"Structural Systems"` round-trips to
`("I. STRUCTURAL SYSTEMS", "Foundations")`. -/
theorem build_resolve_roundtrip_witness :
    resolve_item "foundations"
      (build_title_lookup
        [("Structural Systems", [("foundations", "Foundations")])]) =
      some ("I. STRUCTURAL SYSTEMS", "Foundations") :=
  build_resolve_roundtrip
    [("Structural Systems", [("foundations", "Foundations")])]
    "Structural Systems" [("foundations", "Foundations")]
    "foundations" "Foundations" "I. STRUCTURAL SYSTEMS"
    (by decide) (by decide) (by decide) (by decide)

/-- Counterexample to C5 as stated: two majors both list the source title
`"x"`; the second insertion overwrites the first, so the entry
`("Structural Systems", {"x": "A"})` does not resolve back to its own
major/subsection (under either reading of "its major category"). -/
theorem build_resolve_counterexample :
    ("Structural Systems", [("x", "A")]) ∈
      ([("Structural Systems", [("x", "A")]),
        ("Electrical Systems", [("x", "B")])] : MappingTable) ∧
    ("x", "A") ∈ [("x", "A")] ∧
    resolve_item "x"
      (build_title_lookup
        [("Structural Systems", [("x", "A")]),
         ("Electrical Systems", [("x", "B")])]) =
      some ("II. ELECTRICAL SYSTEMS", "B") ∧
    (some ("II. ELECTRICAL SYSTEMS", "B") : Option (String × String)) ≠
      some ("I. STRUCTURAL SYSTEMS", "A") ∧
    (some ("II. ELECTRICAL SYSTEMS", "B") : Option (String × String)) ≠
      some ("Structural Systems", "A") := by decide

/-! ## C1/C6: the layout allocator -/

lemma widgetLE_total (a b : Widget) : widgetLE a b ∨ widgetLE b a := by
  unfold widgetLE
  rcases lt_trichotomy a.y b.y with h | h | h
  · right; left; exact h
  · rcases le_total a.area b.area with h2 | h2
    · right; right; exact ⟨h.symm, h2⟩
    · left; right; exact ⟨h, h2⟩
  · left; left; exact h

lemma widgetLE_trans {a b c : Widget} (h1 : widgetLE a b) (h2 : widgetLE b c) :
    widgetLE a c := by
  unfold widgetLE at *
  rcases h1 with h1 | ⟨h1, h1'⟩
  · rcases h2 with h2 | ⟨h2, h2'⟩
    · left; exact lt_trans h2 h1
    · left; rw [← h2]; exact h1
  · rcases h2 with h2 | ⟨h2, h2'⟩
    · left; rw [h1]; exact h2
    · right; exact ⟨h1.trans h2, h2'.trans h1'⟩

lemma insWidget_perm (w : Widget) (l : List Widget) :
    List.Perm (insWidget w l) (w :: l) := by
  induction l with
  | nil => exact List.Perm.refl _
  | cons h t ih =>
    unfold insWidget
    by_cases hle : widgetLE w h
    · rw [if_pos hle]
    · rw [if_neg hle]
      exact List.Perm.trans (List.Perm.cons h ih) (List.Perm.swap w h t)

lemma sortWidgets_perm (l : List Widget) :
    List.Perm (sortWidgets l) l := by
  induction l with
  | nil => exact List.Perm.refl _
  | cons w t ih =>
    unfold sortWidgets
    exact List.Perm.trans (insWidget_perm w (sortWidgets t)) (List.Perm.cons w ih)

lemma mem_insWidget {x w : Widget} {l : List Widget} :
    x ∈ insWidget w l ↔ x = w ∨ x ∈ l := by
  rw [(insWidget_perm w l).mem_iff, List.mem_cons]

lemma pairwise_insWidget {w : Widget} {l : List Widget}
    (h : List.Pairwise widgetLE l) :
    List.Pairwise widgetLE (insWidget w l) := by
  induction l with
  | nil => simp [insWidget]
  | cons a t ih =>
    rw [List.pairwise_cons] at h
    unfold insWidget
    by_cases hle : widgetLE w a
    · rw [if_pos hle]
      rw [List.pairwise_cons]
      refine ⟨?_, List.pairwise_cons.mpr h⟩
      intro b hb
      rcases List.mem_cons.mp hb with hb | hb
      · rw [hb]; exact hle
      · exact widgetLE_trans hle (h.1 b hb)
    · rw [if_neg hle]
      rw [List.pairwise_cons]
      refine ⟨?_, ih h.2⟩
      intro b hb
      rcases mem_insWidget.mp hb with hb | hb
      · rw [hb]
        rcases widgetLE_total w a with h' | h'
        · exact absurd h' hle
        · exact h'
      · exact h.1 b hb

lemma sortWidgets_sorted (l : List Widget) :
    List.Pairwise widgetLE (sortWidgets l) := by
  induction l with
  | nil => simp [sortWidgets]
  | cons w t ih =>
    unfold sortWidgets
    exact pairwise_insWidget ih

lemma estimate_nonneg {area : ℚ} (h : 0 ≤ area) :
    0 ≤ estimate_visible_chars area 8 := by
  unfold estimate_visible_chars ratTrunc
  have hq : (0 : ℚ) ≤ area * (45 / 100) / max ((8 : ℚ) / 8) (1 / 2) :=
    div_nonneg (mul_nonneg h (by norm_num))
      (le_trans (by norm_num) (le_max_right ((8 : ℚ) / 8) (1 / 2)))
  rw [if_pos hq]
  exact Int.floor_nonneg.mpr hq

lemma capOf_eq {w : Widget} (h : 0 ≤ w.area) :
    capOf w = ⌊(estimate_visible_chars w.area 8 : ℚ) * (7 / 10)⌋ := by
  unfold capOf ratTrunc
  have hq : (0 : ℚ) ≤ (estimate_visible_chars w.area 8 : ℚ) * (7 / 10) :=
    mul_nonneg (by exact_mod_cast estimate_nonneg h) (by norm_num)
  rw [if_pos hq]

lemma capOf_nonneg {w : Widget} (h : 0 ≤ w.area) : 0 ≤ capOf w := by
  rw [capOf_eq h]
  exact Int.floor_nonneg.mpr
    (mul_nonneg (by exact_mod_cast estimate_nonneg h) (by norm_num))

lemma pySliceTo_nonneg {s : String} {n : ℤ} (h : 0 ≤ n) :
    pySliceTo s n = s.take n.toNat := by
  unfold pySliceTo
  rw [if_pos h]

lemma allocStep_no_items (grouped : List (String × List String))
    (st : AllocState) (p : String × Widget)
    (h : (getAssoc grouped p.1).getD [] = []) :
    allocStep grouped st p = st := by
  simp [allocStep, h]

lemma allocStep_items (grouped : List (String × List String))
    (st : AllocState) (sub : String) (w : Widget) (items : List String)
    (h : getAssoc grouped sub = some items) (hne : items ≠ []) :
    allocStep grouped st (sub, w) =
      ⟨st.writes ++ [(w.name,
          if ((blockOf sub items).length : ℤ) ≤ capOf w then blockOf sub items
          else pySliceTo (blockOf sub items) (capOf w) ++ contMarker)],
        if capOf w < ((blockOf sub items).length : ℤ) then
          updateAssoc st.overflow sub (fun l => l ++ items) []
        else st.overflow⟩ := by
  simp only [allocStep, h, Option.getD_some]
  rw [if_neg (by simp [hne])]

lemma allocStep_overflow_isSome (grouped : List (String × List String))
    (st : AllocState) (a : String) (b : Widget) (sub : String) :
    (getAssoc (allocStep grouped st (a, b)).overflow sub).isSome ↔
      (getAssoc st.overflow sub).isSome ∨
        (a = sub ∧ blockExceeds grouped a b) := by
  by_cases hempty : (getAssoc grouped a).getD [] = []
  · rw [allocStep_no_items grouped st (a, b) hempty]
    simp [blockExceeds, hempty]
  · cases hga : getAssoc grouped a with
    | none => rw [hga] at hempty; simp at hempty
    | some items =>
      rw [hga] at hempty
      simp only [Option.getD_some] at hempty
      rw [allocStep_items grouped st a b items hga hempty]
      by_cases hcap : capOf b < ((blockOf a items).length : ℤ)
      · simp only [if_pos hcap]
        rw [getAssoc_updateAssoc_isSome]
        simp [blockExceeds, hga, hempty, hcap]
      · simp only [if_neg hcap]
        simp [blockExceeds, hga, hcap]

lemma foldl_allocStep_overflow (grouped : List (String × List String)) :
    ∀ (ps : List (String × Widget)) (st : AllocState) (sub : String),
      (getAssoc (ps.foldl (allocStep grouped) st).overflow sub).isSome ↔
        (getAssoc st.overflow sub).isSome ∨
          ∃ w, (sub, w) ∈ ps ∧ blockExceeds grouped sub w := by
  intro ps
  induction ps with
  | nil =>
    intro st sub
    simp
  | cons p t ih =>
    intro st sub
    obtain ⟨a, b⟩ := p
    rw [List.foldl_cons, ih, allocStep_overflow_isSome]
    constructor
    · rintro ((h | ⟨ha, hb⟩) | ⟨w, hw, hb⟩)
      · left; exact h
      · right
        refine ⟨b, List.mem_cons.mpr (Or.inl (by rw [ha])), ?_⟩
        rw [← ha]
        exact hb
      · right; exact ⟨w, List.mem_cons_of_mem _ hw, hb⟩
    · rintro (h | ⟨w, hw, hb⟩)
      · left; left; exact h
      · rcases List.mem_cons.mp hw with hw | hw
        · left; right
          have h1 : a = sub := (Prod.mk.injEq _ _ _ _ ▸ hw.symm).1
          have h2 : b = w := (Prod.mk.injEq _ _ _ _ ▸ hw.symm).2
          refine ⟨h1, ?_⟩
          rw [h1, h2]
          exact hb
        · right; exact ⟨w, hw, hb⟩

lemma allocate_overflow_key (grouped : List (String × List String)) :
    ∀ (pages : List (List String × List Widget)) (st : AllocState)
      (sub : String),
      (getAssoc ((pages.foldl (fun st page => allocPage grouped page.1 page.2 st)
          st).overflow) sub).isSome ↔
        (getAssoc st.overflow sub).isSome ∨
          ∃ page ∈ pages, ∃ w,
            (sub, w) ∈ page.1.zip (sortWidgets (page.2.filter (·.multiline))) ∧
            blockExceeds grouped sub w := by
  intro pages
  induction pages with
  | nil =>
    intro st sub
    simp
  | cons page rest ih =>
    intro st sub
    rw [List.foldl_cons, ih]
    unfold allocPage
    rw [foldl_allocStep_overflow]
    constructor
    · rintro ((h | ⟨w, hw, hb⟩) | ⟨pg, hpg, w, hw, hb⟩)
      · left; exact h
      · right; exact ⟨page, List.mem_cons_self page rest, w, hw, hb⟩
      · right; exact ⟨pg, List.mem_cons_of_mem _ hpg, w, hw, hb⟩
    · rintro (h | ⟨pg, hpg, w, hw, hb⟩)
      · left; left; exact h
      · rcases List.mem_cons.mp hpg with hpg | hpg
        · left; right
          rw [← hpg]
          exact ⟨w, hw, hb⟩
        · right; exact ⟨pg, hpg, w, hw, hb⟩

/-- **C1.**  The allocator processes, per page, exactly the multiline
widgets sorted by descending `y` then descending area, paired positionally
with the page's subsection list (`zip` realizes the `min` of the two
lengths); a pair whose subsection has no grouped items leaves the state
untouched; a pair with items writes the full block when it fits its cap
`⌊0.7 · estimateCapacity(area, 8)⌋` and otherwise the first `cap`
characters plus the continuation marker while extending the subsection's
overflow entry; and the global overflow collection has an entry for a
subsection iff some processed pair's block for it exceeded its cap. -/
theorem layout_allocator_spec :
    (∀ l : List Widget,
      List.Perm (sortWidgets l) l ∧ List.Pairwise widgetLE (sortWidgets l)) ∧
    (∀ (grouped : List (String × List String)) (subsections : List String)
       (widgets : List Widget) (st : AllocState),
      allocPage grouped subsections widgets st =
        (subsections.zip (sortWidgets (widgets.filter (·.multiline)))).foldl
          (allocStep grouped) st) ∧
    (∀ (grouped : List (String × List String)) (st : AllocState)
       (sub : String) (w : Widget),
      (getAssoc grouped sub).getD [] = [] →
        allocStep grouped st (sub, w) = st) ∧
    (∀ (grouped : List (String × List String)) (st : AllocState)
       (sub : String) (w : Widget) (items : List String),
      getAssoc grouped sub = some items → items ≠ [] → 0 ≤ w.area →
        capOf w = ⌊(estimate_visible_chars w.area 8 : ℚ) * (7 / 10)⌋ ∧
        allocStep grouped st (sub, w) =
          ⟨st.writes ++ [(w.name,
              if ((blockOf sub items).length : ℤ) ≤ capOf w then blockOf sub items
              else (blockOf sub items).take (capOf w).toNat ++ contMarker)],
            if capOf w < ((blockOf sub items).length : ℤ) then
              updateAssoc st.overflow sub (fun l => l ++ items) []
            else st.overflow⟩) ∧
    (∀ (grouped : List (String × List String))
       (pages : List (List String × List Widget)) (sub : String),
      (getAssoc (allocate grouped pages).overflow sub).isSome ↔
        ∃ page ∈ pages, ∃ w,
          (sub, w) ∈ page.1.zip (sortWidgets (page.2.filter (·.multiline))) ∧
          blockExceeds grouped sub w) := by
  refine ⟨fun l => ⟨sortWidgets_perm l, sortWidgets_sorted l⟩,
    fun _ _ _ _ => rfl,
    fun grouped st sub w h => allocStep_no_items grouped st (sub, w) h,
    ?_, ?_⟩
  · intro grouped st sub w items h hne harea
    refine ⟨capOf_eq harea, ?_⟩
    rw [allocStep_items grouped st sub w items h hne,
      pySliceTo_nonneg (capOf_nonneg harea)]
  · intro grouped pages sub
    unfold allocate
    rw [allocate_overflow_key grouped pages ⟨[], []⟩ sub]
    simp [getAssoc]

/-- Witness for C1: one page, one multiline region, one populated
subsection, instantiating the with-items and the no-items step rules. -/
theorem layout_allocator_spec_witness :
    (capOf ⟨"f", 0, 100, true⟩ =
        ⌊(estimate_visible_chars (100 : ℚ) 8 : ℚ) * (7 / 10)⌋ ∧
      allocStep [("S", ["x"])] ⟨[], []⟩ ("S", ⟨"f", 0, 100, true⟩) =
        ⟨([] : List (String × String)) ++ [("f",
            if ((blockOf "S" ["x"]).length : ℤ) ≤ capOf ⟨"f", 0, 100, true⟩ then
              blockOf "S" ["x"]
            else (blockOf "S" ["x"]).take (capOf ⟨"f", 0, 100, true⟩).toNat ++
              contMarker)],
          if capOf ⟨"f", 0, 100, true⟩ < ((blockOf "S" ["x"]).length : ℤ) then
            updateAssoc ([] : List (String × List String)) "S"
              (fun l => l ++ ["x"]) []
          else ([] : List (String × List String))⟩) ∧
    allocStep [] ⟨[], []⟩ ("S", ⟨"f", 0, 100, true⟩) = ⟨[], []⟩ :=
  ⟨layout_allocator_spec.2.2.2.1 [("S", ["x"])] ⟨[], []⟩ "S"
      ⟨"f", 0, 100, true⟩ ["x"] (by decide) (by decide) (by decide),
    layout_allocator_spec.2.2.1 [] ⟨[], []⟩ "S" ⟨"f", 0, 100, true⟩ (by decide)⟩

/-! ## C6: capacity truncation at `estimateCapacity = 100` -/

lemma estimate_2000_9 : estimate_visible_chars (2000 / 9) 8 = 100 := by
  unfold estimate_visible_chars ratTrunc
  norm_num

lemma ratTrunc_100_mul : ratTrunc (((100 : ℤ) : ℚ) * (7 / 10)) = 70 := by
  rw [show ((100 : ℤ) : ℚ) * (7 / 10) = ((70 : ℤ) : ℚ) by norm_num]
  unfold ratTrunc
  rw [if_pos (by norm_num)]
  exact Int.floor_intCast 70

lemma capOf_of_est100 (w : Widget)
    (h : estimate_visible_chars w.area 8 = 100) : capOf w = 70 := by
  unfold capOf
  rw [h, ratTrunc_100_mul]

lemma allocPage_single_trunc (sub nm : String) (items : List String)
    (y area : ℚ) (h1 : items ≠ [])
    (h2 : estimate_visible_chars area 8 = 100)
    (h3 : (blockOf sub items).length = 200) :
    allocPage [(sub, items)] [sub] [⟨nm, y, area, true⟩] ⟨[], []⟩ =
      ⟨[(nm, (blockOf sub items).take 70 ++ contMarker)], [(sub, items)]⟩ := by
  have hcap : capOf ⟨nm, y, area, true⟩ = 70 := capOf_of_est100 _ h2
  unfold allocPage
  rw [show ([(⟨nm, y, area, true⟩ : Widget)].filter (·.multiline)) =
      [⟨nm, y, area, true⟩] from rfl]
  rw [show sortWidgets [(⟨nm, y, area, true⟩ : Widget)] =
      [⟨nm, y, area, true⟩] from rfl]
  rw [show [sub].zip [(⟨nm, y, area, true⟩ : Widget)] =
      [(sub, ⟨nm, y, area, true⟩)] from rfl]
  rw [List.foldl_cons, List.foldl_nil]
  rw [allocStep_items [(sub, items)] ⟨[], []⟩ sub ⟨nm, y, area, true⟩ items
    (by simp [getAssoc]) h1]
  rw [hcap, h3]
  rw [if_neg (by norm_num), if_pos (by norm_num)]
  rw [pySliceTo_nonneg (by norm_num)]
  simp [updateAssoc]

/-- **C6 (amended).**  For a region whose `estimateCapacity` result is 100
and a rendered block of length 200, the allocator's cap is
`⌊0.7 · 100⌋ = 70`: it writes exactly the first 70 characters of the block
(not 100) followed by `" … (continued in Narrative)"`, and the
subsection's full item list appears in the overflow collection. -/
theorem allocator_capacity_truncation (sub nm : String) (items : List String)
    (y area : ℚ) (h1 : items ≠ [])
    (h2 : estimate_visible_chars area 8 = 100)
    (h3 : (blockOf sub items).length = 200) :
    capOf ⟨nm, y, area, true⟩ = 70 ∧
    allocPage [(sub, items)] [sub] [⟨nm, y, area, true⟩] ⟨[], []⟩ =
      ⟨[(nm, (blockOf sub items).take 70 ++ contMarker)], [(sub, items)]⟩ :=
  ⟨capOf_of_est100 _ h2, allocPage_single_trunc sub nm items y area h1 h2 h3⟩

set_option maxRecDepth 4000 in
/-- Witness for C6 at a concrete region of area `2000/9` (estimate exactly
100) and a concrete 200-character block. -/
theorem allocator_capacity_truncation_witness :
    capOf ⟨"f", 0, 2000 / 9, true⟩ = 70 ∧
    allocPage [("S", [String.mk (List.replicate 197 'a')])] ["S"]
        [⟨"f", 0, 2000 / 9, true⟩] ⟨[], []⟩ =
      ⟨[("f", (blockOf "S" [String.mk (List.replicate 197 'a')]).take 70 ++
          contMarker)],
        [("S", [String.mk (List.replicate 197 'a')])]⟩ :=
  allocator_capacity_truncation "S" "f" [String.mk (List.replicate 197 'a')]
    0 (2000 / 9) (by decide) estimate_2000_9 (by decide)

set_option maxRecDepth 4000 in
/-- Counterexample to C6 as stated: at `estimateCapacity = 100` and block
length 200, the written value is the first 70 characters plus the marker —
not the first 100 — because the code multiplies the estimate by 0.7 before
truncating. -/
theorem allocator_capacity_truncation_counterexample :
    (allocPage [("S", [String.mk (List.replicate 197 'a')])] ["S"]
        [⟨"f", 0, 2000 / 9, true⟩] ⟨[], []⟩).writes =
      [("f", (blockOf "S" [String.mk (List.replicate 197 'a')]).take 70 ++
          contMarker)] ∧
    (blockOf "S" [String.mk (List.replicate 197 'a')]).take 70 ++ contMarker ≠
      (blockOf "S" [String.mk (List.replicate 197 'a')]).take 100 ++
        contMarker ∧
    estimate_visible_chars (2000 / 9) 8 = 100 ∧
    (blockOf "S" [String.mk (List.replicate 197 'a')]).length = 200 := by
  refine ⟨?_, by decide, estimate_2000_9, by decide⟩
  rw [allocPage_single_trunc "S" "f" [String.mk (List.replicate 197 'a')] 0
    (2000 / 9) (by decide) estimate_2000_9 (by decide)]
